import Mathlib

/-!
Verification development for the pyCycle CEA equilibrium solver (`chem_eq.py`)
and static-flow resolver (`static_ps_resid.py`, `static_ps_calc.py`).

The Python source is shallowly embedded: machine floats are idealized as real
numbers (rationals where every operation involved is rational), numpy
floating-point domain errors (`np.seterr(all='raise')`) are modelled as
explicit `Option`/flagged branches triggered exactly at the mathematical
domain violations (logarithm or division at a non-positive / zero argument),
and the `try/except` fallback logic of the source is reproduced branch by
branch.
-/

namespace PyCycle

open Classical

/-- Constant `P_REF = 1.01325` (1 atm, bar) from `pycycle.constants`,
quoted in the header comment of `chem_eq.py`. -/
def P_REF : ℝ := 1.01325

/-- Constant `R_UNIVERSAL_ENG = 1.9872035` (Btu lbm)/(mol degR) from
`pycycle.constants`, quoted in the header comment of `chem_eq.py`. -/
def R_UNIVERSAL_ENG : ℝ := 1.9872035

/-- Constant `MIN_VALID_CONCENTRATION = 1e-10` from `pycycle.constants`,
quoted in the header comment of `chem_eq.py`. -/
def MIN_VALID_CONCENTRATION : ℚ := 1e-10

/-- Modelled from the spec: the universal gas constant `R_UNIVERSAL_SI`
imported by `static_ps_resid.py` and `static_ps_calc.py` from
`pycycle.constants`, which is not under `src/`; the spec only names it, so it
is taken as the standard SI value.  No theorem below depends on its numeric
value, only on well-definedness. -/
def R_UNIVERSAL_SI : ℝ := 8.3144598

/-- Embedding of `_resid_weighting` (`chem_eq.py`, lines 12-14):
`(1 / (1 + np.exp(-1e5 * n)) - .5) * 2`, applied elementwise. -/
noncomputable def resid_weighting (x : ℝ) : ℝ :=
  (1 / (1 + Real.exp (-1e5 * x)) - 0.5) * 2

/-- Algebraic rewriting of the damping weight as `(1 - E)/(1 + E)` with
`E = exp (-1e5 x)`. -/
lemma resid_weighting_eq (x : ℝ) :
    resid_weighting x =
      (1 - Real.exp (-1e5 * x)) / (1 + Real.exp (-1e5 * x)) := by
  have h : (0:ℝ) < 1 + Real.exp (-1e5 * x) := by positivity
  rw [resid_weighting]
  field_simp
  ring

/-- C3, counterexample: the claim asserts `|weight(x)| ≤ 1e-3` for all
`x ≤ 0`, but at the concrete input `x = -1` the weight is close to `-1`,
so its absolute value exceeds `1e-3`. -/
theorem c3_weight_counterexample : ¬ (|resid_weighting (-1)| ≤ 1e-3) := by
  have harg : (-1e5 : ℝ) * (-1) = 1e5 := by norm_num
  have hE : (1e5 : ℝ) + 1 ≤ Real.exp (1e5) := Real.add_one_le_exp _
  have hEpos : (0:ℝ) < Real.exp (1e5) := Real.exp_pos _
  have hpos : (0:ℝ) < 1 + Real.exp (1e5) := by linarith
  have hval : resid_weighting (-1) =
      (1 - Real.exp (1e5)) / (1 + Real.exp (1e5)) := by
    rw [resid_weighting_eq, harg]
  have hneg : resid_weighting (-1) < 0 := by
    rw [hval]
    apply div_neg_of_neg_of_pos _ hpos
    linarith
  rw [abs_of_neg hneg, not_le, hval]
  rw [show -((1 - Real.exp (1e5:ℝ)) / (1 + Real.exp (1e5:ℝ))) =
      (Real.exp (1e5:ℝ) - 1) / (1 + Real.exp (1e5:ℝ)) from by ring,
    lt_div_iff hpos]
  linarith

/-- C3, amended claim: the damping weight never amplifies
(`-1 < weight(x) ≤ 0` for `x ≤ 0`), the bound `|weight(x)| ≤ 1e-3` holds on
`-1e-8 ≤ x ≤ 0` (not for all `x ≤ 0`), and `weight(x) ≥ 1 - 1e-3` holds for
all `x ≥ 1e-4`. -/
theorem c3_weight_amended (x : ℝ) :
    (x ≤ 0 → -1 < resid_weighting x ∧ resid_weighting x ≤ 0) ∧
    (-1e-8 ≤ x → x ≤ 0 → |resid_weighting x| ≤ 1e-3) ∧
    (1e-4 ≤ x → 1 - 1e-3 ≤ resid_weighting x) := by
  have hEpos : (0:ℝ) < Real.exp (-1e5 * x) := Real.exp_pos _
  have hpos : (0:ℝ) < 1 + Real.exp (-1e5 * x) := by linarith
  refine ⟨fun hx => ?_, fun hxl hxu => ?_, fun hx => ?_⟩
  · have ht : (0:ℝ) ≤ -1e5 * x := by nlinarith
    have hE1 : (1:ℝ) ≤ Real.exp (-1e5 * x) := Real.one_le_exp ht
    constructor
    · rw [resid_weighting_eq, neg_lt, ← neg_div, div_lt_iff hpos]
      linarith
    · rw [resid_weighting_eq]
      apply div_nonpos_of_nonpos_of_nonneg <;> linarith
  · -- on [-1e-8, 0] the exponent t = -1e5·x lies in [0, 1e-3] and
    -- |weight| = (E-1)/(1+E) ≤ t·E/(1+E) ≤ t ≤ 1e-3
    have ht0 : (0:ℝ) ≤ -1e5 * x := by nlinarith
    have ht1 : -1e5 * x ≤ 1e-3 := by nlinarith
    have hE1 : (1:ℝ) ≤ Real.exp (-1e5 * x) := Real.one_le_exp ht0
    have hkey : Real.exp (-1e5 * x) - 1 ≤ (-1e5 * x) * Real.exp (-1e5 * x) := by
      have h2 : (-(-1e5 * x)) + 1 ≤ Real.exp (-(-1e5 * x)) :=
        Real.add_one_le_exp _
      rw [Real.exp_neg] at h2
      have h3 : (1 - (-1e5 * x)) * Real.exp (-1e5 * x) ≤ 1 := by
        rw [← le_div_iff hEpos] at *
        calc (1 - (-1e5 * x)) = -(-1e5 * x) + 1 := by ring
        _ ≤ (Real.exp (-1e5 * x))⁻¹ := h2
        _ = 1 / Real.exp (-1e5 * x) := by rw [one_div]
      nlinarith
    have hw_nonpos : resid_weighting x ≤ 0 := by
      rw [resid_weighting_eq]
      apply div_nonpos_of_nonpos_of_nonneg <;> linarith
    rw [abs_of_nonpos hw_nonpos, resid_weighting_eq]
    rw [show -((1 - Real.exp (-1e5 * x)) / (1 + Real.exp (-1e5 * x))) =
        (Real.exp (-1e5 * x) - 1) / (1 + Real.exp (-1e5 * x)) from by ring,
      div_le_iff hpos]
    have hEt : (-1e5 * x) * Real.exp (-1e5 * x) ≤
        1e-3 * Real.exp (-1e5 * x) := by
      apply mul_le_mul_of_nonneg_right ht1 (le_of_lt hEpos)
    nlinarith
  · -- for x ≥ 1e-4 the exponent t ≤ -10, so E ≤ exp(-10) ≤ 1/2000 and
    -- weight = (1-E)/(1+E) ≥ 1 - 2E ≥ 1 - 1e-3
    have ht : -1e5 * x ≤ -10 := by nlinarith
    have hE10 : (2000:ℝ) ≤ Real.exp 10 := by
      have h20 : Real.exp ((20:ℕ) * (0.5:ℝ)) = Real.exp 0.5 ^ (20:ℕ) :=
        Real.exp_nat_mul _ _
      have h05 : (1.5:ℝ) ≤ Real.exp 0.5 := by
        have := Real.add_one_le_exp (0.5:ℝ)
        linarith
      have hpow : (1.5:ℝ) ^ (20:ℕ) ≤ Real.exp 0.5 ^ (20:ℕ) := by
        apply pow_le_pow_left (by norm_num) h05
      have : ((20:ℕ):ℝ) * (0.5:ℝ) = 10 := by norm_num
      rw [this] at h20
      have hnum : (2000:ℝ) ≤ (1.5:ℝ) ^ (20:ℕ) := by norm_num
      rw [h20]
      linarith
    have hEsmall : Real.exp (-1e5 * x) ≤ 1/2000 := by
      have h1 : Real.exp (-1e5 * x) ≤ Real.exp (-10) := Real.exp_le_exp.mpr ht
      have h2 : Real.exp (-10:ℝ) = (Real.exp 10)⁻¹ := Real.exp_neg _
      have h3 : (Real.exp 10)⁻¹ ≤ 1/2000 := by
        rw [inv_le_iff_one_le_mul₀ (by positivity)]
        nlinarith
      rw [h2] at h1
      linarith
    rw [resid_weighting_eq, le_div_iff hpos]
    nlinarith

/-- C3, witness: instantiates `c3_weight_amended` at `x = 0` (small-negative
band) and at `x = 1` (positive saturation). -/
theorem c3_weight_amended_witness :
    |resid_weighting 0| ≤ 1e-3 ∧ 1 - 1e-3 ≤ resid_weighting 1 :=
  ⟨(c3_weight_amended 0).2.1 (by norm_num) le_rfl,
   (c3_weight_amended 1).2.2 (by norm_num)⟩

namespace ChemEq

/-- Embedding of the guarded chemical-potential computation of
`ChemEq.apply_nonlinear` (`chem_eq.py` lines 174-184).  Under
`np.seterr(all='raise')` a logarithm raises a floating-point domain error
exactly when its argument is not positive.  The `try` branch evaluates
`H0_T - S0_T + log(n) + log(P) - log(n_moles)`; on failure the `except`
branch evaluates `H0_T - S0_T + log(n) + log(1e-5) - log(n_moles)` with the
error state still set to raise, so a failure of `log(n)` or `log(n_moles)`
inside the handler propagates (`none`). `Pq` stands for `P / P_REF`. -/
noncomputable def muGuarded {p : ℕ} (H0 S0 n : Fin p → ℝ) (Pq : ℝ) :
    Option (Fin p → ℝ) :=
  if (∀ j, 0 < n j) ∧ 0 < Pq ∧ 0 < ∑ j, n j then
    some (fun j => H0 j - S0 j + Real.log (n j) + Real.log Pq -
      Real.log (∑ j, n j))
  else if (∀ j, 0 < n j) ∧ 0 < ∑ j, n j then
    some (fun j => H0 j - S0 j + Real.log (n j) + Real.log 1e-5 -
      Real.log (∑ j, n j))
  else none

/-- Embedding of `sum_n_H0_T = np.sum(n * H0_T)` (`chem_eq.py` line 206). -/
def sum_n_H0 {p : ℕ} (n H0 : Fin p → ℝ) : ℝ := ∑ j, n j * H0 j

/-- Embedding of the mode-`h` temperature residual (`chem_eq.py` line 207):
`resids_T = (h - self.sum_n_H0_T * R_UNIVERSAL_ENG * T) / h`. -/
noncomputable def residT_h {p : ℕ} (n H0 : Fin p → ℝ) (T h : ℝ) : ℝ :=
  (h - sum_n_H0 n H0 * R_UNIVERSAL_ENG * T) / h

/-- Formula asserted by the spec sentence for mode `h` (refinement target,
written from the spec words, not from the source):
`resid_T = (h_target − Σ_j n_j·H0_j(T)·R) / h_target`. -/
noncomputable def residT_h_spec {p : ℕ} (n H0 : Fin p → ℝ) (h : ℝ) : ℝ :=
  (h - (∑ j, n j * H0 j) * R_UNIVERSAL_ENG) / h

/-- Embedding of the mode-independent residual assembly of
`ChemEq.apply_nonlinear` (`chem_eq.py` lines 186-200): the Gibbs residual
with optional trace damping (`use_trace_damping`) and trace masking
(`remove_trace_species`), the mass-conservation residual
`resids_pi = np.sum(aij * n, axis=1) - b0`, and the `n_moles` residual.
`mu` is the chemical-potential vector produced by the guarded computation;
the weights are recomputed from `n * n_moles` as in the source. -/
noncomputable def chemResiduals {p e : ℕ} (useTraceDamping removeTraceSpecies : Bool)
    (aij : Fin e → Fin p → ℝ) (n : Fin p → ℝ) (pi b0 : Fin e → ℝ)
    (mu : Fin p → ℝ) (n_moles_out : ℝ) :
    (Fin p → ℝ) × (Fin e → ℝ) × ℝ :=
  let n_moles := ∑ j, n j
  let resids_n0 := fun j => mu j - ∑ i, pi i * aij i j
  let resids_n1 := fun j =>
    if useTraceDamping then resids_n0 j * resid_weighting (n j * n_moles)
    else resids_n0 j
  let resids_n := fun j =>
    if removeTraceSpecies ∧ n j ≤ (MIN_VALID_CONCENTRATION : ℝ) + 1e-20 then 0
    else resids_n1 j
  (resids_n, fun i => (∑ j, aij i j * n j) - b0 i, n_moles - n_moles_out)

/-- Closure modes of `ChemEq` (`options['mode']`, values `('T', 'S', 'h')`). -/
inductive Mode
  | T
  | h
  | S
deriving DecidableEq

/-- Embedding of the uniform initial guess
`self.n_init = np.ones(num_prod) / num_prod / 10` (`chem_eq.py` line 89). -/
noncomputable def n_init (p : ℕ) : Fin p → ℝ := fun _ => 1 / p / 10

/-- Embedding of `ChemEq.guess_nonlinear` (`chem_eq.py` lines 20-25):
given the previous residual norm and the current state `(n, T)`, reset `n`
to `n_init` (and, when the mode is not `T`, reset `T` to `1000`) whenever
`norm > 1e-2 or norm == 0.0 or np.any(n < 0)`; otherwise leave the state
untouched.  Returns the updated `(n, T)`. -/
noncomputable def guess_nonlinear (mode : Mode) (norm : ℝ) {p : ℕ}
    (n : Fin p → ℝ) (T : ℝ) : (Fin p → ℝ) × ℝ :=
  if norm > 1e-2 ∨ norm = 0 ∨ ∃ j, n j < 0 then
    (n_init p, if mode ≠ Mode.T then 1000 else T)
  else (n, T)

end ChemEq

/-- C1, counterexample: at `n = [1]`, `H0 = [1]`, `T = 2`, `h = 1` the code
residual `(h - Σ n_j·H0_j·R·T)/h = 1 - 2R` differs from the spec formula
`(h - Σ n_j·H0_j·R)/h = 1 - R`, exhibiting the missing factor `T`. -/
theorem c1_residT_counterexample :
    ChemEq.residT_h ![(1:ℝ)] ![(1:ℝ)] 2 1 ≠ ChemEq.residT_h_spec ![(1:ℝ)] ![(1:ℝ)] 1 := by
  simp only [ChemEq.residT_h, ChemEq.residT_h_spec, ChemEq.sum_n_H0,
    R_UNIVERSAL_ENG, Fin.sum_univ_one, Matrix.cons_val_zero]
  norm_num

/-- C1, amended claim: in mode `h` the temperature residual is
`resid_T = (h_target − R·T·Σ_j n_j·H0_j(T)) / h_target`, i.e. the quantity
subtracted from `h` is `R·T` (not `R` alone) times `Σ_j n_j·H0_j(T)`. -/
theorem c1_residT_amended {p : ℕ} (n H0 : Fin p → ℝ) (T h : ℝ) (hh : h ≠ 0) :
    ChemEq.residT_h n H0 T h =
      (h - R_UNIVERSAL_ENG * T * ∑ j, n j * H0 j) / h := by
  rw [ChemEq.residT_h, ChemEq.sum_n_H0]
  ring_nf

/-- C1, witness: instantiates `c1_residT_amended` at `n = [1]`, `H0 = [1]`,
`T = 2`, `h = 1`. -/
theorem c1_residT_amended_witness :
    ChemEq.residT_h ![(1:ℝ)] ![(1:ℝ)] 2 1 =
      (1 - R_UNIVERSAL_ENG * 2 * ∑ j, ![(1:ℝ)] j * ![(1:ℝ)] j) / 1 :=
  c1_residT_amended ![(1:ℝ)] ![(1:ℝ)] 2 1 (by norm_num)

/-- C7, counterexample: at `n = [-1]`, `P/P_ref = 1` the logarithm `ln(n_0)`
fails; the `except` branch recomputes `ln(n_0)` with its original argument,
fails again, and the error propagates (`none`) — no floor value is
substituted for the offending term. -/
theorem c7_mu_counterexample :
    ChemEq.muGuarded ![(0:ℝ)] ![(0:ℝ)] ![(-1:ℝ)] 1 = none := by
  have h0 : ¬ (∀ j : Fin 1, (0:ℝ) < ![(-1:ℝ)] j) := by
    intro h
    have := h 0
    norm_num at this
  rw [ChemEq.muGuarded, if_neg (fun h => h0 h.1), if_neg (fun h => h0 h.1)]

/-- C7, amended claim: the guard substitutes `ln(1e-5)` for the `ln(P/P_ref)`
term specifically (not for the offending logarithm): when the only domain
violation is `P/P_ref ≤ 0`, the model returns `mu` with `ln(1e-5)` in place of
`ln(P/P_ref)` and every other logarithm keeping its original argument; when
`ln(n_j)` or `ln(n_moles)` is the failing term, the retry fails too and the
error propagates. -/
theorem c7_mu_amended {p : ℕ} (H0 S0 n : Fin p → ℝ) (Pq : ℝ) :
    ((∀ j, 0 < n j) → 0 < ∑ j, n j → Pq ≤ 0 →
      ChemEq.muGuarded H0 S0 n Pq =
        some (fun j => H0 j - S0 j + Real.log (n j) + Real.log 1e-5 -
          Real.log (∑ j, n j))) ∧
    (((∃ j, n j ≤ 0) ∨ (∑ j, n j) ≤ 0) →
      ChemEq.muGuarded H0 S0 n Pq = none) := by
  constructor
  · intro hn hs hP
    rw [ChemEq.muGuarded, if_neg, if_pos ⟨hn, hs⟩]
    rintro ⟨-, hP2, -⟩
    linarith
  · rintro (⟨j, hj⟩ | hs)
    · have hn' : ¬ (∀ j, 0 < n j) := fun h => absurd (h j) (not_lt.mpr hj)
      rw [ChemEq.muGuarded, if_neg (fun h => hn' h.1),
        if_neg (fun h => hn' h.1)]
    · have hs' : ¬ (0 < ∑ j, n j) := not_lt.mpr hs
      rw [ChemEq.muGuarded, if_neg (fun h => hs' h.2.2),
        if_neg (fun h => hs' h.2)]

/-- C7, witness: instantiates `c7_mu_amended` with `n = [1]`, `Pq = -1`
(fallback path) and with `n = [-1]`, `Pq = 1` (propagation path). -/
theorem c7_mu_amended_witness :
    (ChemEq.muGuarded ![(0:ℝ)] ![(0:ℝ)] ![(1:ℝ)] (-1) =
      some (fun j => ![(0:ℝ)] j - ![(0:ℝ)] j + Real.log (![(1:ℝ)] j) +
        Real.log 1e-5 - Real.log (∑ i, ![(1:ℝ)] i))) ∧
    ChemEq.muGuarded ![(0:ℝ)] ![(0:ℝ)] ![(-1:ℝ)] 1 = none :=
  ⟨(c7_mu_amended ![(0:ℝ)] ![(0:ℝ)] ![(1:ℝ)] (-1)).1
      (by intro j; fin_cases j <;> norm_num)
      (by simp [Fin.sum_univ_one]) (by norm_num),
   (c7_mu_amended ![(0:ℝ)] ![(0:ℝ)] ![(-1:ℝ)] 1).2
      (Or.inl ⟨0, by norm_num⟩)⟩

/-- C8: at any equilibrium state where a component of the mass-conservation
residual `resid_pi[e] = Σ_j aij[e,j]·n_j − b0[e]` vanishes,
`Σ_j aij[e,j]·n_j = b0[e]` holds for that element; the trace-damping and
trace-masking flags are quantified over, since neither modifies `resid_pi`. -/
theorem c8_mass_conservation {p e : ℕ} (td rts : Bool)
    (aij : Fin e → Fin p → ℝ) (n : Fin p → ℝ) (pi b0 : Fin e → ℝ)
    (mu : Fin p → ℝ) (nmo : ℝ) (i : Fin e)
    (hres : (ChemEq.chemResiduals td rts aij n pi b0 mu nmo).2.1 i = 0) :
    ∑ j, aij i j * n j = b0 i := by
  have h : (∑ j, aij i j * n j) - b0 i = 0 := hres
  linarith

/-- C8, witness: a one-species, one-element configuration with
`aij = [[1]]`, `n = [2]`, `b0 = [2]`, whose mass residual is zero. -/
theorem c8_mass_conservation_witness :
    ∑ j, (fun _ : Fin 1 => fun _ : Fin 1 => (1:ℝ)) (0 : Fin 1) j *
      (fun _ : Fin 1 => (2:ℝ)) j = (fun _ : Fin 1 => (2:ℝ)) (0 : Fin 1) :=
  @c8_mass_conservation 1 1 true true (fun _ _ => 1) (fun _ => 2) (fun _ => 0)
    (fun _ => 2) (fun _ => 0) 0 0
    (by
      have : (∑ j : Fin 1, (1:ℝ) * 2) - 2 = 0 := by
        simp [Fin.sum_univ_one]
      exact this)

/-- C9: the pre-solve guess resets `n` to the uniform value `1/(10·num_prod)`
and, in the non-`T` (h/S) closure modes, resets `T` to `1000`, exactly when
the previous residual norm exceeds `1e-2`, equals zero, or some concentration
is negative; otherwise the state `(n, T)` is left unchanged. -/
theorem c9_guess_reset (mode : ChemEq.Mode) (norm : ℝ) {p : ℕ}
    (n : Fin p → ℝ) (T : ℝ) :
    ((norm > 1e-2 ∨ norm = 0 ∨ ∃ j, n j < 0) →
        (ChemEq.guess_nonlinear mode norm n T).1 =
          fun _ => (1:ℝ) / (10 * (p:ℝ))) ∧
    ((norm > 1e-2 ∨ norm = 0 ∨ ∃ j, n j < 0) → mode ≠ ChemEq.Mode.T →
        (ChemEq.guess_nonlinear mode norm n T).2 = 1000) ∧
    ((norm > 1e-2 ∨ norm = 0 ∨ ∃ j, n j < 0) → mode = ChemEq.Mode.T →
        (ChemEq.guess_nonlinear mode norm n T).2 = T) ∧
    (¬(norm > 1e-2 ∨ norm = 0 ∨ ∃ j, n j < 0) →
        ChemEq.guess_nonlinear mode norm n T = (n, T)) := by
  have hreset : ∀ hc : norm > 1e-2 ∨ norm = 0 ∨ ∃ j, n j < 0,
      ChemEq.guess_nonlinear mode norm n T =
        (ChemEq.n_init p, if mode ≠ ChemEq.Mode.T then (1000:ℝ) else T) :=
    fun hc => by rw [ChemEq.guess_nonlinear, if_pos hc]
  refine ⟨fun hc => ?_, fun hc hm => ?_, fun hc hm => ?_, fun hc => ?_⟩
  · rw [hreset hc]
    funext j
    show (1:ℝ) / p / 10 = 1 / (10 * p)
    rw [div_div, mul_comm]
  · rw [hreset hc]
    show (if mode ≠ ChemEq.Mode.T then (1000:ℝ) else T) = 1000
    rw [if_pos hm]
  · rw [hreset hc]
    show (if mode ≠ ChemEq.Mode.T then (1000:ℝ) else T) = T
    rw [if_neg (fun hne => hne hm)]
  · rw [ChemEq.guess_nonlinear, if_neg hc]

/-- C9, witness: instantiates `c9_guess_reset` on the reset path (mode `h`,
norm `1`) and on the keep path (mode `T`, norm `5e-3`, positive `n`). -/
theorem c9_guess_reset_witness :
    ((ChemEq.guess_nonlinear ChemEq.Mode.h 1 (fun _ : Fin 2 => (1:ℝ)) 5).1 =
      fun _ => 1 / (10 * ((2:ℕ):ℝ))) ∧
    ((ChemEq.guess_nonlinear ChemEq.Mode.h 1 (fun _ : Fin 2 => (1:ℝ)) 5).2 =
      1000) ∧
    ((ChemEq.guess_nonlinear ChemEq.Mode.T 1 (fun _ : Fin 2 => (1:ℝ)) 5).2 =
      5) ∧
    (ChemEq.guess_nonlinear ChemEq.Mode.T 5e-3 (fun _ : Fin 2 => (1:ℝ)) 5 =
      (fun _ => 1, 5)) := by
  have hkeep : ¬((5e-3:ℝ) > 1e-2 ∨ (5e-3:ℝ) = 0 ∨
      ∃ j : Fin 2, (fun _ : Fin 2 => (1:ℝ)) j < 0) := by
    rintro (h | h | ⟨j, hj⟩) <;> norm_num at *
  exact ⟨(c9_guess_reset _ _ _ _).1 (Or.inl (by norm_num)),
    (c9_guess_reset _ _ _ _).2.1 (Or.inl (by norm_num)) (by decide),
    (c9_guess_reset _ _ _ _).2.2.1 (Or.inl (by norm_num)) rfl,
    (c9_guess_reset _ _ _ _).2.2.2 hkeep⟩

namespace PsResid

/-- Embedding of the isentropic total-to-static pressure estimate used by
`PsResid.guess_nonlinear` (`static_ps_resid.py` lines 80, 89, 94):
`Pt * (1 + (gamt-1)/2 * MN**2) ** (-gamt/(gamt-1))`. -/
noncomputable def psGuessIsen (Pt gamt MN : ℝ) : ℝ :=
  Pt * (1 + (gamt - 1) / 2 * MN ^ 2) ^ (-gamt / (gamt - 1))

/-- Embedding of the MN-mode branch of `PsResid.guess_nonlinear`
(`static_ps_resid.py` lines 79-84) as a transition on the pair
`(ps_guess_cache, Ps)` given the fresh estimate `psG`: the state is seeded
(and the cache updated) only when `psG` differs from the cache by more than
`1e-10` AND the cache still holds the sentinel `-1`; in every other case
both are kept.  Returns `(new cache, new Ps)`. -/
noncomputable def guessStepMN (cache Ps psG : ℝ) : ℝ × ℝ :=
  if 1e-10 < |psG - cache| then
    (if cache = -1 then (psG, psG) else (cache, Ps))
  else (cache, Ps)

/-- MN-mode `guess_nonlinear`: fresh isentropic estimate from the guess
inputs, then the caching step. -/
noncomputable def guess_nonlinear_MN (Pt gamt MN cache Ps : ℝ) : ℝ × ℝ :=
  guessStepMN cache Ps (psGuessIsen Pt gamt MN)

/-- Embedding of the mass-flow Mach estimate of `f2`
(`static_ps_resid.py` line 90):
`W*(R_UNIVERSAL_SI*Ts)**0.5/(ps_guess*1.0e6*area*gamt**0.5)`. -/
noncomputable def mnFromMass (W Ts ps area gamt : ℝ) : ℝ :=
  W * Real.sqrt (R_UNIVERSAL_SI * Ts) / (ps * 1e6 * area * Real.sqrt gamt)

/-- Embedding of the closure `equations` passed to `fsolve`
(`static_ps_resid.py` lines 87-91).  The captured outer variables `M_guess`
and `ps_guess` hold, at every call `fsolve` makes, the initial guesses of
lines 93-94; the unknowns `q = (ps, MN)` enter only through the leading
terms, so the system is decoupled. -/
noncomputable def areaGuessEquations (Pt gamt W Ts area M_guess ps_guess : ℝ)
    (q : ℝ × ℝ) : ℝ × ℝ :=
  (q.1 - psGuessIsen Pt gamt M_guess,
   q.2 - mnFromMass W Ts ps_guess area gamt)

/-- The unique root of `areaGuessEquations` with `ps_guess` set to the
line-94 estimate, modelling the pair `fsolve` returns
(`static_ps_resid.py` line 95): each equation is an unknown minus a
constant, so this is the exact solution. -/
noncomputable def areaGuessRoot (Pt gamt W Ts area M_guess : ℝ) : ℝ × ℝ :=
  (psGuessIsen Pt gamt M_guess,
   mnFromMass W Ts (psGuessIsen Pt gamt M_guess) area gamt)

/-- Embedding of the cache/seed step of the area-mode branch of
`PsResid.guess_nonlinear` (`static_ps_resid.py` lines 97-101), including the
hard-coded `mixer.Fl_I1_calc` special case: `mixerPath` is true when the
component pathname contains that substring.  Returns `(new cache, new Ps)`. -/
noncomputable def guessStepArea (mixerPath : Bool) (cache Ps psG : ℝ) : ℝ × ℝ :=
  if 1e-10 < |psG - cache| then (psG, if mixerPath then 3 else psG)
  else (cache, Ps)

/-- Area-mode `guess_nonlinear`: root-find the decoupled system, then apply
the cache/seed step to the root-found `Ps` guess. -/
noncomputable def guess_nonlinear_area (mixerPath : Bool)
    (Pt gamt W Ts area M_guess cache Ps : ℝ) : ℝ × ℝ :=
  guessStepArea mixerPath cache Ps (areaGuessRoot Pt gamt W Ts area M_guess).1

/-- Embedding of `PsResid._compute_outputs_area`
(`static_ps_resid.py` lines 121-140) on the domain
`0 ≤ gamma·R·n_moles·Ts` where the unguarded `Vsonic = (...)**0.5` of
line 122 is a genuine square root (outside it the Python code silently
produces NaN, which this real-valued model does not represent).  `areaInf`
models `area == np.inf`.  Under `np.seterr(all='raise')` the division
`W/(rho*Vsonic*area)` raises a `FloatingPointError` exactly when its divisor
is zero; the `except` branch prints a diagnostic and substitutes `MN = 5.`,
and execution continues.  The returned Bool records whether that handler
ran.  Result is `((MN, Vsonic, V), caught)` with `V = MN * Vsonic`. -/
noncomputable def compute_outputs_area (Ts n_moles gamma W rho area : ℝ)
    (areaInf : Bool) : (ℝ × ℝ × ℝ) × Bool :=
  let Vsonic := Real.sqrt (gamma * R_UNIVERSAL_SI * n_moles * Ts)
  if areaInf then ((0, Vsonic, 0 * Vsonic), false)
  else if rho * Vsonic * area = 0 then ((5, Vsonic, 5 * Vsonic), true)
  else ((W / (rho * Vsonic * area), Vsonic,
    W / (rho * Vsonic * area) * Vsonic), false)

end PsResid

/-- Concrete value of the isentropic estimate at `Pt = 1`, `gamt = 2`,
`MN = 0` (the real exponent `-2/1` acts on base `1`). -/
lemma psGuessIsen_at_zero : PsResid.psGuessIsen 1 2 0 = 1 := by
  rw [PsResid.psGuessIsen]
  norm_num

/-- Concrete value of the isentropic estimate at `Pt = 1`, `gamt = 2`,
`MN = 1`: `(3/2)^(-2) = 4/9`. -/
lemma psGuessIsen_at_one : PsResid.psGuessIsen 1 2 1 = 4 / 9 := by
  rw [PsResid.psGuessIsen]
  have h : (1 : ℝ) + (2 - 1) / 2 * 1 ^ 2 = 3 / 2 := by norm_num
  rw [h, show (-2 : ℝ) / (2 - 1) = ((-2 : ℤ) : ℝ) from by norm_num,
    Real.rpow_intCast]
  norm_num

/-- C4, counterexample: with cache `5` and state `Ps = 5`, the fresh
estimate `1` differs from the cache by far more than `1e-10`, yet the state
keeps the old value `5` instead of being seeded with the fresh estimate
(the `cache == -1` sentinel gate blocks it), contradicting the claim that
the cached value is discarded in favor of the fresh estimate. -/
theorem c4_guess_counterexample :
    1e-10 < |PsResid.psGuessIsen 1 2 0 - 5| ∧
    (PsResid.guess_nonlinear_MN 1 2 0 5 5).2 = 5 ∧
    (PsResid.guess_nonlinear_MN 1 2 0 5 5).2 ≠ PsResid.psGuessIsen 1 2 0 := by
  have hstep : PsResid.guess_nonlinear_MN 1 2 0 5 5 = (5, 5) := by
    rw [PsResid.guess_nonlinear_MN, psGuessIsen_at_zero, PsResid.guessStepMN,
      if_pos (by norm_num), if_neg (by norm_num)]
  refine ⟨?_, by rw [hstep], ?_⟩
  · rw [psGuessIsen_at_zero]
    norm_num
  · rw [hstep, psGuessIsen_at_zero]
    norm_num

/-- C4, amended claim: the MN-mode guess seeds the `Ps` state with the fresh
isentropic estimate (and stores it in the cache) only when the estimate
differs from the cache by more than `1e-10` AND the cache still holds the
sentinel `-1` (the first produced guess); in every other case — including a
fresh estimate that differs from a non-sentinel cache by more than `1e-10` —
both the cache and the converged `Ps` are left unchanged. -/
theorem c4_guess_amended (Pt gamt MN cache Ps : ℝ) :
    (1e-10 < |PsResid.psGuessIsen Pt gamt MN - cache| → cache = -1 →
      PsResid.guess_nonlinear_MN Pt gamt MN cache Ps =
        (PsResid.psGuessIsen Pt gamt MN, PsResid.psGuessIsen Pt gamt MN)) ∧
    (1e-10 < |PsResid.psGuessIsen Pt gamt MN - cache| → cache ≠ -1 →
      PsResid.guess_nonlinear_MN Pt gamt MN cache Ps = (cache, Ps)) ∧
    (¬ 1e-10 < |PsResid.psGuessIsen Pt gamt MN - cache| →
      PsResid.guess_nonlinear_MN Pt gamt MN cache Ps = (cache, Ps)) := by
  refine ⟨fun hd hc => ?_, fun hd hc => ?_, fun hd => ?_⟩
  · rw [PsResid.guess_nonlinear_MN, PsResid.guessStepMN, if_pos hd, if_pos hc]
  · rw [PsResid.guess_nonlinear_MN, PsResid.guessStepMN, if_pos hd, if_neg hc]
  · rw [PsResid.guess_nonlinear_MN, PsResid.guessStepMN, if_neg hd]

/-- C4, witness: instantiates `c4_guess_amended` on the first-seed path
(cache `-1`) and on the warm-start path (cache `5`). -/
theorem c4_guess_amended_witness :
    (PsResid.guess_nonlinear_MN 1 2 0 (-1) 7 =
      (PsResid.psGuessIsen 1 2 0, PsResid.psGuessIsen 1 2 0)) ∧
    PsResid.guess_nonlinear_MN 1 2 0 5 5 = (5, 5) :=
  ⟨(c4_guess_amended 1 2 0 (-1) 7).1
      (by rw [psGuessIsen_at_zero]; norm_num) rfl,
   (c4_guess_amended 1 2 0 5 5).2.1
      (by rw [psGuessIsen_at_zero]; norm_num) (by norm_num)⟩

/-- C5, counterexample: at `Pt = 1`, `gamt = 2`, `W = 1`, `Ts = 0`,
`area = 1`, `M_guess = 1` the pair returned by the root-find is
`(4/9, 0)`, and `4/9` does not satisfy the isentropic relation at the
returned Mach number `0` (which would require `Ps = 1`): the first residual
is anchored at the fixed initial `M_guess`, not at the unknown. -/
theorem c5_area_guess_counterexample :
    (PsResid.areaGuessRoot 1 2 1 0 1 1).1 ≠
      PsResid.psGuessIsen 1 2 (PsResid.areaGuessRoot 1 2 1 0 1 1).2 := by
  have h2 : (PsResid.areaGuessRoot 1 2 1 0 1 1).2 = 0 := by
    show PsResid.mnFromMass 1 0 (PsResid.psGuessIsen 1 2 1) 1 2 = 0
    rw [PsResid.mnFromMass, mul_zero, Real.sqrt_zero]
    simp
  have h1 : (PsResid.areaGuessRoot 1 2 1 0 1 1).1 = 4 / 9 := by
    show PsResid.psGuessIsen 1 2 1 = 4 / 9
    exact psGuessIsen_at_one
  rw [h1, h2, psGuessIsen_at_zero]
  norm_num

/-- C5, amended claim: the area-mode guess root-finds a degenerate,
decoupled system: the returned pair is the unique root of the embedded
`equations`, its `Ps` component equals the closed-form isentropic estimate
at the FIXED initial `M_guess`, and its `MN` component satisfies the
mass-flow Mach relation evaluated at the returned `Ps` (because the
returned `Ps` coincides with the captured initial `ps_guess`); the
isentropic relation at the returned pair itself can fail. -/
theorem c5_area_guess_amended (Pt gamt W Ts area M_guess : ℝ) :
    PsResid.areaGuessEquations Pt gamt W Ts area M_guess
      (PsResid.psGuessIsen Pt gamt M_guess)
      (PsResid.areaGuessRoot Pt gamt W Ts area M_guess) = (0, 0) ∧
    (∀ q, PsResid.areaGuessEquations Pt gamt W Ts area M_guess
      (PsResid.psGuessIsen Pt gamt M_guess) q = (0, 0) →
      q = PsResid.areaGuessRoot Pt gamt W Ts area M_guess) ∧
    (PsResid.areaGuessRoot Pt gamt W Ts area M_guess).1 =
      PsResid.psGuessIsen Pt gamt M_guess ∧
    (PsResid.areaGuessRoot Pt gamt W Ts area M_guess).2 =
      PsResid.mnFromMass W Ts
        (PsResid.areaGuessRoot Pt gamt W Ts area M_guess).1 area gamt := by
  refine ⟨?_, fun q hq => ?_, rfl, rfl⟩
  · rw [PsResid.areaGuessEquations, PsResid.areaGuessRoot]
    simp
  · rw [PsResid.areaGuessEquations, Prod.mk.injEq] at hq
    rw [PsResid.areaGuessRoot, Prod.ext_iff]
    constructor
    · have := hq.1
      dsimp at this ⊢
      linarith
    · have := hq.2
      dsimp at this ⊢
      linarith

/-- C5, witness: instantiates the uniqueness part of `c5_area_guess_amended`
at concrete inputs, discharging its hypothesis with the root itself. -/
theorem c5_area_guess_amended_witness :
    PsResid.areaGuessRoot 1 2 1 0 1 1 = PsResid.areaGuessRoot 1 2 1 0 1 1 :=
  (c5_area_guess_amended 1 2 1 0 1 1).2.1 _ (c5_area_guess_amended 1 2 1 0 1 1).1

/-- C6, counterexample: in area-mode with finite `area = 1`, `n_moles = 0`
(so `Vsonic = 0` and the divisor `rho·Vsonic·area` vanishes), the division
raises a `FloatingPointError` which the handler absorbs: the call returns
normally with the hard-coded default `MN = 5` — for `W = 1` and for
`W = 99` alike — instead of surfacing an error to the caller. -/
theorem c6_error_counterexample :
    PsResid.compute_outputs_area 1 0 (7/5) 1 1 1 false = ((5, 0, 0), true) ∧
    PsResid.compute_outputs_area 1 0 (7/5) 99 1 1 false = ((5, 0, 0), true) := by
  constructor <;>
  · simp only [PsResid.compute_outputs_area]
    rw [show (7:ℝ)/5 * R_UNIVERSAL_SI * 0 * 1 = 0 from by ring]
    simp

/-- C6, amended claim: in `PsResid._compute_outputs_area` with finite area,
a floating-point divide error while evaluating `MN` (divisor
`rho·Vsonic·area = 0`) is caught inside the routine: a diagnostic is
printed, the fixed default `MN = 5.0` is substituted, and the computation
returns normally (`V = 5·Vsonic`); the error is not surfaced to the
caller. -/
theorem c6_error_amended (Ts n_moles gamma W rho area : ℝ)
    (hdom : 0 ≤ gamma * R_UNIVERSAL_SI * n_moles * Ts)
    (hdiv : rho * Real.sqrt (gamma * R_UNIVERSAL_SI * n_moles * Ts) * area = 0) :
    PsResid.compute_outputs_area Ts n_moles gamma W rho area false =
      ((5, Real.sqrt (gamma * R_UNIVERSAL_SI * n_moles * Ts),
        5 * Real.sqrt (gamma * R_UNIVERSAL_SI * n_moles * Ts)), true) := by
  simp only [PsResid.compute_outputs_area]
  rw [if_neg (by simp), if_pos hdiv]

/-- C6, witness: instantiates `c6_error_amended` at the concrete degenerate
input `n_moles = 0`. -/
theorem c6_error_amended_witness :
    PsResid.compute_outputs_area 1 0 (7/5) 1 1 1 false =
      ((5, Real.sqrt ((7/5) * R_UNIVERSAL_SI * 0 * 1),
        5 * Real.sqrt ((7/5) * R_UNIVERSAL_SI * 0 * 1)), true) :=
  c6_error_amended 1 0 (7/5) 1 1 1
    (by rw [show (7:ℝ)/5 * R_UNIVERSAL_SI * 0 * 1 = 0 from by ring])
    (by rw [show (7:ℝ)/5 * R_UNIVERSAL_SI * 0 * 1 = 0 from by ring,
      Real.sqrt_zero, mul_zero, zero_mul])

/-- C10: whenever the root-found `Ps` guess differs from the cache by more
than `1e-10` and the pathname contains `mixer.Fl_I1_calc`, the `Ps` state is
seeded with the hard-coded constant `3.0` instead of the computed estimate,
while the cache is still updated with the computed estimate; without the
pathname match the computed estimate itself seeds the state. -/
theorem c10_mixer_hack (Pt gamt W Ts area M_guess cache Ps : ℝ)
    (hd : 1e-10 < |(PsResid.areaGuessRoot Pt gamt W Ts area M_guess).1 - cache|) :
    PsResid.guess_nonlinear_area true Pt gamt W Ts area M_guess cache Ps =
      ((PsResid.areaGuessRoot Pt gamt W Ts area M_guess).1, 3) ∧
    PsResid.guess_nonlinear_area false Pt gamt W Ts area M_guess cache Ps =
      ((PsResid.areaGuessRoot Pt gamt W Ts area M_guess).1,
       (PsResid.areaGuessRoot Pt gamt W Ts area M_guess).1) := by
  constructor <;>
  · rw [PsResid.guess_nonlinear_area, PsResid.guessStepArea, if_pos hd]
    simp

/-- C10, witness: instantiates `c10_mixer_hack` at concrete inputs where the
root-found guess is `1` and the cache is `5`. -/
theorem c10_mixer_hack_witness :
    PsResid.guess_nonlinear_area true 1 2 1 0 1 0 5 9 =
      ((PsResid.areaGuessRoot 1 2 1 0 1 0).1, 3) ∧
    PsResid.guess_nonlinear_area false 1 2 1 0 1 0 5 9 =
      ((PsResid.areaGuessRoot 1 2 1 0 1 0).1,
       (PsResid.areaGuessRoot 1 2 1 0 1 0).1) :=
  c10_mixer_hack 1 2 1 0 1 0 5 9
    (by show 1e-10 < |PsResid.psGuessIsen 1 2 0 - 5|
        rw [psGuessIsen_at_zero]
        norm_num)

namespace ChemEq

/-- Embedding of the `n`-`n` block of the Newton Jacobian `_dRdy` as filled
by `ChemEq._calc_dRdy` (`chem_eq.py` lines 344-352 and 393-399): every entry
starts at `-1/n_moles`, the diagonal is `1/n_j - 1/n_moles`, each row is
scaled by its damping weight when `use_trace_damping` is set (the cached
`self.weights` enter as the parameter `w`), and, when `remove_trace_species`
is set, the final loop zeroes every row with `n_j <= 1.0e-10` and writes
`-1.0` on its diagonal.  Over `ℚ`, since every operation in this block is
rational. -/
def dRdy_nn (td rts : Bool) {p : ℕ} (n w : Fin p → ℚ) : Fin p → Fin p → ℚ :=
  fun r c =>
    if rts ∧ n r ≤ 1e-10 then (if r = c then -1 else 0)
    else
      (if r = c then 1 / n r - 1 / (∑ j, n j) else -(1 / (∑ j, n j))) *
        (if td then w r else 1)

/-- Embedding of the trace masking that `ChemEq.linearize` applies on top of
`_calc_dRdy` to the `n`-`n` block view `J_n_n` (`chem_eq.py` lines 301-304),
with the trace index set `self._trace` recorded by `apply_nonlinear` at the
same state (line 196: `n <= MIN_VALID_CONCENTRATION + 1e-20`): first the
columns of trace species are zeroed, then their rows, then `1` is written on
their diagonal entries.  The result is the block `J['n','n']` handed to the
Newton solver. -/
def linearize_J_n_n (td rts : Bool) {p : ℕ} (n w : Fin p → ℚ) :
    Fin p → Fin p → ℚ :=
  fun r c =>
    if rts then
      if n r ≤ MIN_VALID_CONCENTRATION + 1e-20 ∧
          n c ≤ MIN_VALID_CONCENTRATION + 1e-20 ∧ r = c then 1
      else if n r ≤ MIN_VALID_CONCENTRATION + 1e-20 ∨
          n c ≤ MIN_VALID_CONCENTRATION + 1e-20 then 0
      else dRdy_nn td rts n w r c
    else dRdy_nn td rts n w r c

end ChemEq

/-- C2: when trace removal is active, for every trace species `j`
(`n_j ≤ MIN_VALID_CONCENTRATION`), the `n`-`n` block of the Newton Jacobian
assembled by `linearize` has row `j` and column `j` zeroed except for the
value `1` on the diagonal entry `(j, j)` — an identity sub-block decoupling
that state component; the damping flag is irrelevant. -/
theorem c2_trace_jacobian {p : ℕ} (td : Bool) (n w : Fin p → ℚ) (j : Fin p)
    (hj : n j ≤ MIN_VALID_CONCENTRATION) :
    ChemEq.linearize_J_n_n td true n w j j = 1 ∧
    (∀ c, c ≠ j → ChemEq.linearize_J_n_n td true n w j c = 0) ∧
    (∀ r, r ≠ j → ChemEq.linearize_J_n_n td true n w r j = 0) := by
  have hj' : n j ≤ MIN_VALID_CONCENTRATION + 1e-20 :=
    le_trans hj (by norm_num [MIN_VALID_CONCENTRATION])
  refine ⟨?_, fun c hc => ?_, fun r hr => ?_⟩
  · rw [ChemEq.linearize_J_n_n]
    rw [if_pos rfl, if_pos ⟨hj', hj', rfl⟩]
  · rw [ChemEq.linearize_J_n_n]
    rw [if_pos rfl, if_neg (fun h => hc h.2.2.symm), if_pos (Or.inl hj')]
  · rw [ChemEq.linearize_J_n_n]
    rw [if_pos rfl, if_neg (fun h => hr h.2.2), if_pos (Or.inr hj')]

/-- C2, witness: a two-species state with `n = [1e-12, 1]` and damping
weights `[2, 3]`; species `0` is trace and its Jacobian row/column collapse
to the identity sub-block. -/
theorem c2_trace_jacobian_witness :
    ChemEq.linearize_J_n_n true true ![(1e-12 : ℚ), 1] ![(2 : ℚ), 3] 0 0 = 1 ∧
    ChemEq.linearize_J_n_n true true ![(1e-12 : ℚ), 1] ![(2 : ℚ), 3] 0 1 = 0 ∧
    ChemEq.linearize_J_n_n true true ![(1e-12 : ℚ), 1] ![(2 : ℚ), 3] 1 0 = 0 :=
  have h := c2_trace_jacobian true ![(1e-12 : ℚ), 1] ![(2 : ℚ), 3] 0
    (by norm_num [MIN_VALID_CONCENTRATION])
  ⟨h.1, h.2.1 1 (by decide), h.2.2 1 (by decide)⟩

end PyCycle
